import Mathlib

/-!
Verification of the go-log package (dangersalad/go-log): a shallow
embedding of `log.go` and `handler.go` (and the second design variant in
the unnamed source files) together with proofs of the specified
properties.

Modelling conventions:
* Go strings are modelled as `List Char` (`GoStr`).  The source operates
  on bytes; on the characters appearing here the two views agree (the
  one multi-byte character used, `µ`, never interacts with indexing).
* Writing to stdout is modelled by returning the list of emitted lines
  (`[]` = nothing was printed).
* `os.Getenv` is modelled by an explicit `Env` record passed to the
  construction functions that read it.
* `runtime.Caller` (stack inspection) is not modelled; the caller token
  is an explicit argument where the source calls `getCaller()`.
-/

namespace GoLog

/-- Go strings, viewed as character sequences. -/
abbrev GoStr := List Char

/-- `const prefixLimit = 6` from `log.go` (source name `prefixLimit`). -/
def pfxLimit : ℕ := 6

/-- `const callerLimit = 22` from `log.go`. -/
def callerLimit : ℕ := 22

/-- `debugPrefix = "DBG"` from `log.go` (source name `debugPrefix`). -/
def debugTag : GoStr := "DBG".toList

/-- `infoPrefix = "NFO"` from `log.go` (source name `infoPrefix`). -/
def infoTag : GoStr := "NFO".toList

/-- The `Logger` struct of `log.go`: field `pfx` models the source field
`prefix` (a Lean keyword), `debugEnabled` models `debugEnabled`. -/
structure Logger where
  pfx : GoStr
  debugEnabled : Bool

/-- The environment, as read by `os.Getenv("DEPLOY_ENV")` and
`os.Getenv("LOG_DEBUG")`. -/
structure Env where
  deployEnv : GoStr
  logDebug : GoStr

/-- `checkDebugEnabled` from `log.go` (the four-value variant). -/
def checkDebugEnabled (env : Env) : Bool :=
  env.deployEnv == "dev".toList ||
  env.deployEnv == "development".toList ||
  env.deployEnv == "test".toList ||
  env.deployEnv == "testing".toList ||
  env.logDebug != []

/-- `checkDebugEnabled` from the unnamed variant source (part_001): only
"dev" and "development" are recognised there. -/
def checkDebugEnabledV1 (env : Env) : Bool :=
  env.deployEnv == "dev".toList ||
  env.deployEnv == "development".toList ||
  env.logDebug != []

/-- `NewLogger` from `log.go`: computes the debug flag from the
environment only when `debugEnabled` is true, then limits the name to
`prefixLimit` characters. -/
def NewLogger (p : GoStr) (debugEnabled : Bool) (env : Env) : Logger :=
  let d := if debugEnabled then checkDebugEnabled env else false
  let p' := if pfxLimit < p.length then p.take pfxLimit else p
  { pfx := p', debugEnabled := d }

/-- `SetDefaultName` from `log.go`, modelled as a function on the logger
it mutates (the package-level `defaultLogger`). -/
def SetDefaultName (l : Logger) (n : GoStr) : Logger :=
  if pfxLimit < n.length then { l with pfx := n.take pfxLimit }
  else { l with pfx := n }

/-- `%-Ns`: left-justified padding to width `w` (Go `fmt` padding). -/
def goPad (w : ℕ) (s : GoStr) : GoStr :=
  s ++ List.replicate (w - s.length) ' '

/-- `fmt.Println` on already-rendered arguments: space-joined plus a
final newline. -/
def fmtPrintln (xs : List GoStr) : GoStr :=
  List.intercalate [' '] xs ++ ['\n']

/-- `Logger.output` from `log.go`: assembles the argument list
(`caller` stands for the source's `getCaller()` result) and renders the
printed line. -/
def Logger.output (l : Logger) (levelTag caller : GoStr) (a : List GoStr) : GoStr :=
  let a1 := if l.debugEnabled then (goPad 22 caller ++ "  | ".toList) :: a else a
  let a2 := (goPad 6 l.pfx ++ "  | ".toList) :: a1
  let a3 := if l.debugEnabled then (levelTag ++ "  | ".toList) :: a2 else a2
  fmtPrintln a3

/-- `Logger.outputf` from `log.go`: builds the format string with the
level tag, name and caller columns, then appends a newline exactly when
the last character is not already one.  Format arguments are considered
pre-rendered into `f`. -/
def Logger.outputf (l : Logger) (levelTag caller f : GoStr) : GoStr :=
  let f1 :=
    if l.debugEnabled then
      levelTag ++ "  |  ".toList ++ goPad 6 l.pfx ++ "  |  ".toList ++
        goPad 22 caller ++ "  |  ".toList ++ f
    else
      goPad 6 l.pfx ++ "  |  ".toList ++ f
  if f1.getLast? ≠ some '\n' then f1 ++ ['\n'] else f1

/-- `Logger.debug` from `log.go`: no output unless `debugEnabled`. -/
def Logger.debug (l : Logger) (caller : GoStr) (a : List GoStr) : List GoStr :=
  if !l.debugEnabled then [] else [l.output debugTag caller a]

/-- `Logger.debugf` from `log.go`: no output unless `debugEnabled`. -/
def Logger.debugf (l : Logger) (caller f : GoStr) : List GoStr :=
  if !l.debugEnabled then [] else [l.outputf debugTag caller f]

/-- `Logger.info` from `log.go`. -/
def Logger.info (l : Logger) (caller : GoStr) (a : List GoStr) : List GoStr :=
  [l.output infoTag caller a]

/-- `Logger.infof` from `log.go`. -/
def Logger.infof (l : Logger) (caller f : GoStr) : List GoStr :=
  [l.outputf infoTag caller f]

/-- Method `Logger.Debug`. -/
def Logger.Debug (l : Logger) (caller : GoStr) (a : List GoStr) : List GoStr :=
  l.debug caller a

/-- Method `Logger.Debugln` (delegates to `debug`, like `Debug`). -/
def Logger.Debugln (l : Logger) (caller : GoStr) (a : List GoStr) : List GoStr :=
  l.debug caller a

/-- Method `Logger.Debugf`. -/
def Logger.Debugf (l : Logger) (caller f : GoStr) : List GoStr :=
  l.debugf caller f

/-- Method `Logger.Info`. -/
def Logger.Info (l : Logger) (caller : GoStr) (a : List GoStr) : List GoStr :=
  l.info caller a

/-- Method `Logger.Infoln` (delegates to `info`, like `Info`). -/
def Logger.Infoln (l : Logger) (caller : GoStr) (a : List GoStr) : List GoStr :=
  l.info caller a

/-- Method `Logger.Infof`. -/
def Logger.Infof (l : Logger) (caller f : GoStr) : List GoStr :=
  l.infof caller f

/-- Method `Logger.Print`, an alias for `Info`. -/
def Logger.Print (l : Logger) (caller : GoStr) (a : List GoStr) : List GoStr :=
  l.Info caller a

/-- Method `Logger.Println`, an alias for `Info`. -/
def Logger.Println (l : Logger) (caller : GoStr) (a : List GoStr) : List GoStr :=
  l.Info caller a

/-- Method `Logger.Printf`, an alias for `Infof`. -/
def Logger.Printf (l : Logger) (caller f : GoStr) : List GoStr :=
  l.Infof caller f

/-- Decimal rendering of a natural number (Go `fmt` `%d` / `strconv`). -/
def natToStr (n : ℕ) : GoStr := (toString n).toList

/-- `strings.Split(s, "/")` on character lists: splits at every
separator, keeping empty fields, and returns `[[]]` on the empty
string, exactly like Go. -/
def goSplit (sep : Char) : List Char → List (List Char)
  | [] => [[]]
  | c :: rest =>
    match goSplit sep rest with
    | [] => [[c]]
    | p :: ps => if c = sep then [] :: p :: ps else (c :: p) :: ps

/-- The candidate caller token built inside `normalizeCaller`:
`strings.Join(parts[len(parts)-count:], "/") + ":" + line`.  Go panics
(slice bounds out of range) when `count > len(parts)`; that is modelled
as `none`. -/
def callerAt (line : ℕ) (fullfile : GoStr) (count : ℕ) : Option GoStr :=
  let parts := goSplit '/' fullfile
  if count ≤ parts.length then
    some (List.intercalate ['/'] (parts.drop (parts.length - count)) ++
      ':' :: natToStr line)
  else none

/-- `normalizeCaller` from `log.go`.  The `count` argument models the
variadic `counts` parameter (the default call passes 4, see
`normalizeCallerDefault`).  At `count = 1` an over-long token is
hard-truncated to its last `callerLimit` characters; at larger counts
the function recurses with `count - 1`.  At `count = 0` the Go code
would recurse with `count = -1` and panic on the slice, modelled as
`none`. -/
def normalizeCaller (line : ℕ) (fullfile : GoStr) : ℕ → Option GoStr
  | 0 =>
    match callerAt line fullfile 0 with
    | none => none
    | some caller =>
      if callerLimit < caller.length then none else some caller
  | 1 =>
    match callerAt line fullfile 1 with
    | none => none
    | some caller =>
      if callerLimit < caller.length then
        some (caller.drop (caller.length - callerLimit))
      else some caller
  | c + 2 =>
    match callerAt line fullfile (c + 2) with
    | none => none
    | some caller =>
      if callerLimit < caller.length then normalizeCaller line fullfile (c + 1)
      else some caller

/-- `normalizeCaller(line, fullfile)` with the default segment count 4,
as called from `getCaller`. -/
def normalizeCallerDefault (line : ℕ) (fullfile : GoStr) : Option GoStr :=
  normalizeCaller line fullfile 4

/-- Number of recursive calls `normalizeCaller` makes from a given
starting count, mirroring its recursion structure. -/
def normCallerDepth (line : ℕ) (fullfile : GoStr) : ℕ → ℕ
  | 0 => 0
  | 1 => 0
  | c + 2 =>
    match callerAt line fullfile (c + 2) with
    | none => 0
    | some caller =>
      if callerLimit < caller.length then
        normCallerDepth line fullfile (c + 1) + 1
      else 0

/-! ## HTTP handler (`handler.go` and the unnamed variant part_000) -/

/-- Outcome of `statusWriter.Hijack`: either the underlying
`http.Hijacker`'s result (`ok`) or the error return (`err`). -/
inductive HijackResult (α : Type) where
  | ok (conn : α)
  | err (msg : GoStr)
deriving DecidableEq

/-- The wrapped `http.ResponseWriter`.  `hijackCap` is `some r` when the
underlying writer implements `http.Hijacker` (and its `Hijack()` call
would produce `r`), `none` when the type assertion fails. -/
structure ResponseSink (α : Type) where
  hijackCap : Option (HijackResult α)

/-- The `statusWriter` struct of `handler.go`: embedded response writer,
recorded status, and recorded body (last chunk written). -/
structure statusWriter (α : Type) where
  respWriter : ResponseSink α
  status : ℕ
  body : GoStr

/-- `statusWriter.WriteHeader`: records the status and forwards. -/
def statusWriter.WriteHeader (w : statusWriter α) (s : ℕ) : statusWriter α :=
  { w with status := s }

/-- `statusWriter.Write`: records the chunk (overwriting, not
appending) and forwards. -/
def statusWriter.Write (w : statusWriter α) (b : GoStr) : statusWriter α :=
  { w with body := b }

/-- `statusWriter.Hijack` from `handler.go`: forwards to the underlying
writer when it supports hijacking, otherwise returns the error
`"hijacking not supported"`. -/
def statusWriter.Hijack (w : statusWriter α) : HijackResult α :=
  match w.respWriter.hijackCap with
  | some r => r
  | none => .err "hijacking not supported".toList

/-- An operation the downstream handler performs on the wrapper. -/
inductive WOp where
  | writeHeader (code : ℕ)
  | write (b : GoStr)
deriving DecidableEq

/-- One step of the wrapper state machine. -/
def swStep (w : statusWriter α) : WOp → statusWriter α
  | .writeHeader s => w.WriteHeader s
  | .write b => w.Write b

/-- The wrapper as constructed by `HTTPHandler`
(`&statusWriter{ResponseWriter: w, status: 200}`; `body` zero value). -/
def initStatusWriter (w : ResponseSink α) : statusWriter α :=
  { respWriter := w, status := 200, body := [] }

/-- The wrapper state after the downstream handler has performed `ops`
on a freshly constructed wrapper. -/
def swRun (w : ResponseSink α) (ops : List WOp) : statusWriter α :=
  ops.foldl swStep (initStatusWriter w)

/-- The request data used by the middleware: method, rendered URL, and
the URL path matched against the blacklist. -/
structure Request where
  method : GoStr
  url : GoStr
  path : GoStr

/-- The log line format `"%s %s [%d] (%s)"` of the unnamed-variant
`HTTPHandler` (part_000), with arguments pre-rendered. -/
def fmtReqLine (m url : GoStr) (status : ℕ) (d : GoStr) : GoStr :=
  m ++ ' ' :: url ++ " [".toList ++ natToStr status ++ "] (".toList ++ d ++ [')']

/-- `HTTPHandler`'s per-request logging decision (unnamed variant,
part_000): the downstream handler is modelled by the operations `ops`
it performs on the wrapper, the blacklist by an optional path
predicate (`regexp.MatchString`), and the already-rendered elapsed-time
string by `d` (its rendering is `diffStr` below).  Returns the emitted
log lines. -/
def HTTPHandler (logger : Logger) (blacklist : Option (GoStr → Bool))
    (sink : ResponseSink α) (r : Request) (ops : List WOp)
    (d : GoStr) (caller : GoStr) : List GoStr :=
  let sw := swRun sink ops
  if (match blacklist with | some bl => bl r.path | none => false) then []
  else if 500 ≤ sw.status then
    logger.Infof caller (fmtReqLine r.method r.url sw.status d)
  else
    logger.Debugf caller (fmtReqLine r.method r.url sw.status d)

/-! ## Elapsed-duration rendering (`handler.go`) -/

/-- `time.Second` in nanoseconds. -/
def Second : ℕ := 1000000000

/-- `time.Millisecond` in nanoseconds. -/
def Millisecond : ℕ := 1000000

/-- Decimal digits of `v`, left-padded with zeros to width `w`. -/
def natDigitsPadded (w v : ℕ) : GoStr :=
  List.replicate (w - (natToStr v).length) '0' ++ natToStr v

/-- Remove trailing `'0'` characters. -/
def dropTrailingZeros (l : GoStr) : GoStr :=
  (l.reverse.dropWhile (fun c => c = '0')).reverse

/-- Go `time`'s `fmtFrac`: the fraction part (with leading `"."`, empty
when all fraction digits are zero, trailing zeros omitted) of `v` at
`prec` digits, together with `v` shifted down by `prec` digits. -/
def fmtFrac (v : ℕ) (prec : ℕ) : GoStr × ℕ :=
  let digits := dropTrailingZeros (natDigitsPadded prec (v % 10 ^ prec))
  (if digits = [] then [] else '.' :: digits, v / 10 ^ prec)

/-- Go `time.Duration.String()` for non-negative durations (in
nanoseconds): sub-second durations use the largest fitting unit of
ns/µs/ms; otherwise seconds with fraction, plus minute and hour fields
when non-zero. -/
def durationString (dur : ℕ) : GoStr :=
  if dur < Second then
    if dur = 0 then "0s".toList
    else if dur < 1000 then natToStr dur ++ "ns".toList
    else if dur < 1000000 then
      let p := fmtFrac dur 3
      natToStr p.2 ++ p.1 ++ "µs".toList
    else
      let p := fmtFrac dur 6
      natToStr p.2 ++ p.1 ++ "ms".toList
  else
    let p := fmtFrac dur 9
    let secs := natToStr (p.2 % 60) ++ p.1 ++ "s".toList
    let u2 := p.2 / 60
    if u2 = 0 then secs
    else
      let withMin := natToStr (u2 % 60) ++ "m".toList ++ secs
      let u3 := u2 / 60
      if u3 = 0 then withMin else natToStr u3 ++ "h".toList ++ withMin

/-- `diff.Truncate(time.Millisecond)` for non-negative durations. -/
def truncateMs (dur : ℕ) : ℕ := dur - dur % Millisecond

/-- The three renderings the middleware's `diffStr` can take.  The
middle case carries the exact value of the source expression
`float64(diff.Nanoseconds()) / 10000000.0` (formatted `"%0.3fms"` in
Go); floating-point formatting is kept symbolic as the exact rational,
which is what the printed digits are derived from. -/
inductive DiffRendering where
  | secondScale (s : GoStr)
  | msFixed (v : ℚ)
  | shortDefault (s : GoStr)
deriving DecidableEq

/-- The `diffStr` computation of `HTTPHandler` (`handler.go` lines
66–71): strictly more than one second renders the millisecond-truncated
duration; else strictly more than one millisecond renders the
fixed-precision value `ns / 10000000.0`; else the default
`Duration.String()` rendering. -/
def diffStr (diff : ℕ) : DiffRendering :=
  if Second < diff then .secondScale (durationString (truncateMs diff))
  else if Millisecond < diff then .msFixed ((diff : ℚ) / 10000000)
  else .shortDefault (durationString diff)

/-- Number of leading newline characters of a character list. -/
def countLeadingNL : List Char → ℕ
  | [] => 0
  | c :: r => if c = '\n' then countLeadingNL r + 1 else 0

/-- Number of trailing newline characters of a character list. -/
def countTrailingNL (l : List Char) : ℕ :=
  countLeadingNL l.reverse

/-! ## Claim theorems -/

/-- C4: with `debugEnabled = false`, each of `Debug`, `Debugln` and
`Debugf` emits nothing, while the Info family (`Info`, `Infoln`,
`Infof`, and the aliases `Print`, `Println`, `Printf`) always emits a
line, for every logger. -/
theorem c4_debug_noop_info_always (l : Logger) (caller f : GoStr)
    (a : List GoStr) (h : l.debugEnabled = false) :
    l.Debug caller a = [] ∧ l.Debugln caller a = [] ∧ l.Debugf caller f = [] ∧
    ∀ l' : Logger, l'.Info caller a ≠ [] ∧ l'.Infoln caller a ≠ [] ∧
      l'.Infof caller f ≠ [] ∧ l'.Print caller a ≠ [] ∧
      l'.Println caller a ≠ [] ∧ l'.Printf caller f ≠ [] := by
  refine ⟨?_, ?_, ?_, fun l' => ⟨?_, ?_, ?_, ?_, ?_, ?_⟩⟩ <;>
    simp [Logger.Debug, Logger.Debugln, Logger.Debugf, Logger.debug,
      Logger.debugf, h, Logger.Info, Logger.Infoln, Logger.Infof,
      Logger.Print, Logger.Println, Logger.Printf, Logger.info, Logger.infof]

/-- Witness for C4 at a concrete debug-disabled logger. -/
theorem c4_witness :
    (Logger.mk "main".toList false).Debug "c".toList ["x".toList] = [] ∧
    (Logger.mk "main".toList false).Debugln "c".toList ["x".toList] = [] ∧
    (Logger.mk "main".toList false).Debugf "c".toList "x".toList = [] ∧
    ∀ l' : Logger, l'.Info "c".toList ["x".toList] ≠ [] ∧
      l'.Infoln "c".toList ["x".toList] ≠ [] ∧
      l'.Infof "c".toList "x".toList ≠ [] ∧
      l'.Print "c".toList ["x".toList] ≠ [] ∧
      l'.Println "c".toList ["x".toList] ≠ [] ∧
      l'.Printf "c".toList "x".toList ≠ [] :=
  c4_debug_noop_info_always (Logger.mk "main".toList false) "c".toList
    "x".toList ["x".toList] rfl

/-- C5: the environment gate is true exactly for the recognised
`DEPLOY_ENV` values ("dev"/"development"/"test"/"testing", the variant
`checkDebugEnabledV1` recognising only the first two) or a non-empty
`LOG_DEBUG`; `NewLogger` stores `false` when the honor-environment flag
is false, and stores the gate's construction-time value when it is
true. -/
theorem c5_env_gate (env : Env) (p : GoStr) :
    (checkDebugEnabled env = true ↔
      (env.deployEnv = "dev".toList ∨ env.deployEnv = "development".toList ∨
       env.deployEnv = "test".toList ∨ env.deployEnv = "testing".toList ∨
       env.logDebug ≠ [])) ∧
    (checkDebugEnabledV1 env = true ↔
      (env.deployEnv = "dev".toList ∨ env.deployEnv = "development".toList ∨
       env.logDebug ≠ [])) ∧
    (NewLogger p false env).debugEnabled = false ∧
    (NewLogger p true env).debugEnabled = checkDebugEnabled env := by
  refine ⟨?_, ?_, rfl, rfl⟩ <;>
    simp [checkDebugEnabled, checkDebugEnabledV1, Bool.or_eq_true,
      beq_iff_eq, bne_iff_ne, or_assoc]

/-- C8: a name longer than the 6-character limit is stored truncated to
its first 6 characters, both by `NewLogger` and by `SetDefaultName`; a
name of at most 6 characters is stored unchanged. -/
theorem c8_name_truncation (n : GoStr) (d : Bool) (env : Env) (l : Logger) :
    (6 < n.length →
      (NewLogger n d env).pfx = n.take 6 ∧ (SetDefaultName l n).pfx = n.take 6) ∧
    (n.length ≤ 6 →
      (NewLogger n d env).pfx = n ∧ (SetDefaultName l n).pfx = n) := by
  constructor
  · intro h
    have h' : pfxLimit < n.length := by simpa [pfxLimit] using h
    exact ⟨by simp [NewLogger, pfxLimit, h], by simp [SetDefaultName, pfxLimit, h]⟩
  · intro h
    have h' : ¬ pfxLimit < n.length := by simp [pfxLimit]; omega
    exact ⟨by simp [NewLogger, h'], by simp [SetDefaultName, h']⟩

/-- Witness for C8 at a long and a short concrete name. -/
theorem c8_witness :
    ((NewLogger "longername".toList true (Env.mk [] [])).pfx =
        "longername".toList.take 6 ∧
      (SetDefaultName (Logger.mk "main".toList false) "longername".toList).pfx =
        "longername".toList.take 6) ∧
    ((NewLogger "app".toList true (Env.mk [] [])).pfx = "app".toList ∧
      (SetDefaultName (Logger.mk "main".toList false) "app".toList).pfx =
        "app".toList) :=
  ⟨(c8_name_truncation "longername".toList true (Env.mk [] [])
      (Logger.mk "main".toList false)).1 (by decide),
   (c8_name_truncation "app".toList true (Env.mk [] [])
      (Logger.mk "main".toList false)).2 (by decide)⟩

/-- C9: when the underlying writer lacks the hijack capability the
wrapper's `Hijack` returns the distinct error `"hijacking not
supported"` (never equal to a successful result); when the capability
is present the underlying result is forwarded unchanged. -/
theorem c9_hijack_passthrough (α : Type) (w : statusWriter α) :
    (w.respWriter.hijackCap = none →
      w.Hijack = HijackResult.err "hijacking not supported".toList) ∧
    (∀ r, w.respWriter.hijackCap = some r → w.Hijack = r) ∧
    (∀ (conn : α) (msg : GoStr),
      (HijackResult.err msg : HijackResult α) ≠ HijackResult.ok conn) := by
  refine ⟨fun h => ?_, fun r h => ?_, fun conn msg => by simp⟩ <;>
    simp [statusWriter.Hijack, h]

/-- Witness for C9 at a concrete unsupporting and a supporting sink. -/
theorem c9_witness :
    (statusWriter.mk (ResponseSink.mk (α := Unit) none) 200 []).Hijack =
      HijackResult.err "hijacking not supported".toList ∧
    (statusWriter.mk (ResponseSink.mk (some (HijackResult.ok ()))) 200
      []).Hijack = HijackResult.ok () :=
  ⟨(c9_hijack_passthrough Unit
      (statusWriter.mk (ResponseSink.mk none) 200 [])).1 rfl,
   (c9_hijack_passthrough Unit
      (statusWriter.mk (ResponseSink.mk (some (HijackResult.ok ()))) 200
        [])).2.1 (HijackResult.ok ()) rfl⟩

/-- Folding operations that contain no `writeHeader` leaves the
recorded status unchanged. -/
lemma swFoldl_status_of_no_writeHeader (s : statusWriter α) (ops : List WOp)
    (h : ∀ op ∈ ops, ∀ code, op ≠ WOp.writeHeader code) :
    (ops.foldl swStep s).status = s.status := by
  induction ops generalizing s with
  | nil => rfl
  | cons op rest ih =>
    cases op with
    | writeHeader code => exact absurd rfl (h _ (by simp) code)
    | write b =>
      simpa [swStep, statusWriter.Write] using
        ih (s.Write b) (fun op hm code => h op (by simp [hm]) code)

/-- Folding operations that contain no `write` leaves the recorded body
unchanged. -/
lemma swFoldl_body_of_no_write (s : statusWriter α) (ops : List WOp)
    (h : ∀ op ∈ ops, ∀ b, op ≠ WOp.write b) :
    (ops.foldl swStep s).body = s.body := by
  induction ops generalizing s with
  | nil => rfl
  | cons op rest ih =>
    cases op with
    | write b => exact absurd rfl (h _ (by simp) b)
    | writeHeader code =>
      simpa [swStep, statusWriter.WriteHeader] using
        ih (s.WriteHeader code) (fun op hm b => h op (by simp [hm]) b)

/-- C6: on a fresh wrapper, body writes alone leave the recorded status
at its default 200; a `WriteHeader 404` followed only by body writes
records 404; and the recorded body is always the most recent chunk
written, not a concatenation. -/
theorem c6_status_writer_capture (α : Type) (sink : ResponseSink α)
    (ops : List WOp) :
    ((∀ op ∈ ops, ∀ code, op ≠ WOp.writeHeader code) →
      (swRun sink ops).status = 200) ∧
    (∀ pre bs, ops = pre ++ WOp.writeHeader 404 :: List.map WOp.write bs →
      (swRun sink ops).status = 404) ∧
    (∀ pre b post, ops = pre ++ WOp.write b :: post →
      (∀ op ∈ post, ∀ b2, op ≠ WOp.write b2) →
      (swRun sink ops).body = b) := by
  refine ⟨fun h => ?_, fun pre bs hops => ?_, fun pre b post hops hpost => ?_⟩
  · exact swFoldl_status_of_no_writeHeader _ _ h
  · subst hops
    unfold swRun
    rw [List.foldl_append, List.foldl_cons]
    have : ∀ op ∈ List.map WOp.write bs, ∀ code, op ≠ WOp.writeHeader code := by
      intro op hm code
      obtain ⟨b, -, rfl⟩ := List.mem_map.mp hm
      simp
    rw [swFoldl_status_of_no_writeHeader _ _ this]
    rfl
  · subst hops
    unfold swRun
    rw [List.foldl_append, List.foldl_cons]
    rw [swFoldl_body_of_no_write _ _ hpost]
    rfl

/-- Witness for C6 at concrete operation sequences. -/
theorem c6_witness :
    (swRun (ResponseSink.mk (α := Unit) none)
      [WOp.write "a".toList, WOp.write "b".toList]).status = 200 ∧
    (swRun (ResponseSink.mk (α := Unit) none)
      [WOp.writeHeader 404, WOp.write "a".toList]).status = 404 ∧
    (swRun (ResponseSink.mk (α := Unit) none)
      [WOp.write "a".toList, WOp.write "b".toList]).body = "b".toList :=
  ⟨(c6_status_writer_capture Unit (ResponseSink.mk none)
      [WOp.write "a".toList, WOp.write "b".toList]).1 (by simp),
   (c6_status_writer_capture Unit (ResponseSink.mk none)
      [WOp.writeHeader 404, WOp.write "a".toList]).2.1 []
      ["a".toList] (by decide),
   (c6_status_writer_capture Unit (ResponseSink.mk none)
      [WOp.write "a".toList, WOp.write "b".toList]).2.2
      [WOp.write "a".toList] "b".toList [] (by simp) (by simp)⟩

/-- `goSplit` never returns the empty list (like `strings.Split`). -/
lemma goSplit_ne_nil (sep : Char) (l : List Char) : goSplit sep l ≠ [] := by
  cases l with
  | nil => simp [goSplit]
  | cons c rest =>
    simp only [goSplit]
    split
    · simp
    · split <;> simp

/-- C10: the recursion of `normalizeCaller` is bounded: the number of
recursive calls never exceeds the starting segment count, and at the
base count 1 the function returns unconditionally (hard-truncating when
over budget). -/
theorem c10_normalize_caller_terminates (line : ℕ) (file : GoStr) (count : ℕ) :
    normCallerDepth line file count ≤ count ∧
    ∃ s, normalizeCaller line file 1 = some s := by
  constructor
  · induction count using Nat.strong_induction_on with
    | _ count ih =>
      match count with
      | 0 => simp [normCallerDepth]
      | 1 => simp [normCallerDepth]
      | c + 2 =>
        simp only [normCallerDepth]
        cases h : callerAt line file (c + 2) with
        | none => simp
        | some caller =>
          simp only
          split
          · have := ih (c + 1) (by omega)
            omega
          · omega
  · have hlen : 1 ≤ (goSplit '/' file).length :=
      List.length_pos.mpr (goSplit_ne_nil '/' file)
    simp only [normalizeCaller, callerAt, if_pos hlen]
    split
    · exact ⟨_, rfl⟩
    · exact ⟨_, rfl⟩

/-- C3 (amended): for every path with at least `count ≥ 1`
slash-separated segments the normalizer returns a token of at most
`callerLimit = 22` characters; in particular for the default count 4
this holds for every path with at least 4 segments. -/
theorem c3_caller_token_bounded (line : ℕ) (file : GoStr) (count : ℕ)
    (h1 : 1 ≤ count) (h2 : count ≤ (goSplit '/' file).length) :
    ∃ s, normalizeCaller line file count = some s ∧ s.length ≤ callerLimit := by
  induction count using Nat.strong_induction_on with
  | _ count ih =>
    match count with
    | 0 => omega
    | 1 =>
      simp only [normalizeCaller, callerAt, if_pos h2]
      split
      · refine ⟨_, rfl, ?_⟩
        rw [List.length_drop]
        omega
      · exact ⟨_, rfl, by omega⟩
    | c + 2 =>
      simp only [normalizeCaller, callerAt, if_pos h2]
      split
      · exact ih (c + 1) (by omega) (by omega) (by omega)
      · exact ⟨_, rfl, by omega⟩

/-- Witness for C3 (amended) at a concrete 4-segment path. -/
theorem c3_witness :
    ∃ s, normalizeCaller 3 "/a/b/c.go".toList 4 = some s ∧
      s.length ≤ callerLimit :=
  c3_caller_token_bounded 3 "/a/b/c.go".toList 4 (by decide) (by decide)

/-- Counterexample for C3 as stated: on a path with a single segment
the Go code panics (slice bounds out of range, modelled as `none`), so
no bounded token is returned. -/
theorem c3_counterexample :
    normalizeCallerDefault 5 "main.go".toList = none ∧
    ¬ ∃ s, normalizeCallerDefault 5 "main.go".toList = some s ∧
      s.length ≤ callerLimit := by
  refine ⟨by decide, ?_⟩
  rintro ⟨s, hs, -⟩
  rw [show normalizeCallerDefault 5 "main.go".toList = none from by decide] at hs
  exact Option.noConfusion hs

/-- C2 (code evaluation at the failing input): an elapsed time of
1500ms does render second-scale as "1.5s", but at exactly 2.345ms
(2345000 ns) the fixed-precision branch computes
`ns / 10000000 = 0.2345`, not the value 2.345 the claim requires — the
source divides nanoseconds by 1e7 instead of 1e6.  The default
`Duration.String()` rendering of the same input would have been
"2.345ms", confirming that value as the intent. -/
theorem c2_duration_scale_bug :
    diffStr 1500000000 = DiffRendering.secondScale "1.5s".toList ∧
    diffStr 2345000 = DiffRendering.msFixed (469 / 2000) ∧
    (469 / 2000 : ℚ) ≠ 2345 / 1000 ∧
    durationString 2345000 = "2.345ms".toList := by
  refine ⟨by decide, ?_, by norm_num, by decide⟩
  have : ((2345000 : ℕ) : ℚ) / 10000000 = 469 / 2000 := by norm_num
  simp only [diffStr, Second, Millisecond]
  norm_num [this]

/-- Leading-newline count of a concatenation: the left part either is
all newlines (and the count continues into the right part) or caps the
count. -/
lemma countLeadingNL_append (a b : List Char) :
    countLeadingNL (a ++ b) =
      if countLeadingNL a = a.length then a.length + countLeadingNL b
      else countLeadingNL a := by
  induction a with
  | nil => simp [countLeadingNL]
  | cons c r ih =>
    simp only [List.cons_append, countLeadingNL, List.length_cons,
      List.append_eq]
    by_cases hc : c = '\n'
    · rw [if_pos hc, if_pos hc, ih]
      by_cases hr : countLeadingNL r = r.length
      · rw [if_pos hr, if_pos (by omega)]
        omega
      · rw [if_neg hr, if_neg (by omega)]
    · rw [if_neg hc, if_neg hc, if_neg (by omega)]

/-- Trailing-newline count of a concatenation. -/
lemma countTrailingNL_append (a b : List Char) :
    countTrailingNL (a ++ b) =
      if countTrailingNL b = b.length then b.length + countTrailingNL a
      else countTrailingNL b := by
  unfold countTrailingNL
  rw [List.reverse_append, countLeadingNL_append]
  simp

/-- Prepending anything before a block with no trailing newline keeps
the trailing-newline count of the right block. -/
lemma countTrailingNL_append_left (a b : List Char)
    (ha : countTrailingNL a = 0) :
    countTrailingNL (a ++ b) = countTrailingNL b := by
  rw [countTrailingNL_append]
  split
  · omega
  · rfl

/-- A block ending in the column separator has no trailing newline. -/
lemma countTrailingNL_sep (Y : List Char) :
    countTrailingNL (Y ++ "  |  ".toList) = 0 := by
  rw [countTrailingNL_append, if_neg (by decide)]
  decide

/-- Appending one newline increases the trailing count by one. -/
lemma countTrailingNL_snoc_newline (l : List Char) :
    countTrailingNL (l ++ ['\n']) = countTrailingNL l + 1 := by
  rw [countTrailingNL_append, if_pos (by decide)]
  have h1 : (['\n'] : List Char).length = 1 := rfl
  rw [h1]
  omega

/-- A list whose last character is not a newline has no trailing
newlines. -/
lemma countTrailingNL_eq_zero (l : List Char) (c : Char)
    (h : l.getLast? = some c) (hc : c ≠ '\n') : countTrailingNL l = 0 := by
  unfold countTrailingNL
  rw [← List.head?_reverse] at h
  cases hrev : l.reverse with
  | nil => simp [countLeadingNL]
  | cons x t =>
    rw [hrev] at h
    simp only [List.head?_cons, Option.some.injEq] at h
    subst h
    simp [countLeadingNL, hc]

/-- A list whose last character is a newline has at least one trailing
newline. -/
lemma one_le_countTrailingNL (l : List Char)
    (h : l.getLast? = some '\n') : 1 ≤ countTrailingNL l := by
  unfold countTrailingNL
  rw [← List.head?_reverse] at h
  cases hrev : l.reverse with
  | nil => rw [hrev] at h; exact Option.noConfusion h
  | cons x t =>
    rw [hrev] at h
    simp only [List.head?_cons, Option.some.injEq] at h
    subst h
    simp [countLeadingNL]

/-- The format string assembled inside `outputf` is some block ending
in the column separator, followed by `f`. -/
lemma outputf_f1_shape (l : Logger) (lvl caller f : GoStr) :
    ∃ P, (if l.debugEnabled then
      lvl ++ "  |  ".toList ++ goPad 6 l.pfx ++ "  |  ".toList ++
        goPad 22 caller ++ "  |  ".toList ++ f
    else
      goPad 6 l.pfx ++ "  |  ".toList ++ f) =
      (P ++ "  |  ".toList) ++ f := by
  cases h : l.debugEnabled with
  | false =>
    exact ⟨goPad 6 l.pfx, by simp⟩
  | true =>
    refine ⟨lvl ++ "  |  ".toList ++ goPad 6 l.pfx ++ "  |  ".toList ++
      goPad 22 caller, by simp⟩

/-- C1 (amended): the rendered `outputf` line ends with
`max 1 t` trailing newlines, where `t` is the trailing-newline count of
the format string: exactly one newline is present when the format
string ended with zero or one, and extra trailing newlines of the
format string are preserved. -/
theorem c1_outputf_trailing_newline (l : Logger) (lvl caller f : GoStr) :
    countTrailingNL (l.outputf lvl caller f) = max 1 (countTrailingNL f) := by
  obtain ⟨P, hP⟩ := outputf_f1_shape l lvl caller f
  unfold Logger.outputf
  rw [hP]
  have hsep : countTrailingNL (P ++ "  |  ".toList) = 0 := countTrailingNL_sep P
  have hf1 : countTrailingNL ((P ++ "  |  ".toList) ++ f) = countTrailingNL f :=
    countTrailingNL_append_left _ _ hsep
  have hne : (P ++ "  |  ".toList) ++ f ≠ [] := by
    simp [show "  |  ".toList = [' ', ' ', '|', ' ', ' '] from rfl]
  by_cases h : ((P ++ "  |  ".toList) ++ f).getLast? = some '\n'
  · rw [if_neg (not_not_intro h), hf1]
    exact (max_eq_right (hf1 ▸ one_le_countTrailingNL _ h)).symm
  · rw [if_pos h]
    obtain ⟨c, hc⟩ : ∃ c, ((P ++ "  |  ".toList) ++ f).getLast? = some c := by
      cases hgl : ((P ++ "  |  ".toList) ++ f).getLast? with
      | none => exact absurd (List.getLast?_eq_none_iff.mp hgl) hne
      | some c => exact ⟨c, rfl⟩
    have hcn : c ≠ '\n' := fun hh => h (hh ▸ hc)
    have h0 : countTrailingNL f = 0 :=
      hf1 ▸ countTrailingNL_eq_zero _ c hc hcn
    rw [countTrailingNL_snoc_newline, hf1, h0]
    decide

/-- Counterexample for C1 as stated ("exactly one trailing newline
regardless"): a format string ending in two newlines is passed through
unchanged, so the rendered line ends with two. -/
theorem c1_counterexample :
    countTrailingNL
      ((Logger.mk "main".toList false).outputf infoTag []
        ('h' :: 'i' :: '\n' :: '\n' :: [])) = 2 := by
  decide

/-- Every `outputf` line contains its message verbatim as a contiguous
segment. -/
lemma outputf_contains_msg (l : Logger) (lvl caller msg : GoStr) :
    ∃ A B, l.outputf lvl caller msg = A ++ msg ++ B := by
  obtain ⟨P, hP⟩ := outputf_f1_shape l lvl caller msg
  unfold Logger.outputf
  rw [hP]
  by_cases h : ((P ++ "  |  ".toList) ++ msg).getLast? ≠ some '\n'
  · exact ⟨P ++ "  |  ".toList, ['\n'], by rw [if_pos h]⟩
  · exact ⟨P ++ "  |  ".toList, [], by rw [if_neg h]; simp⟩

/-- C7: the middleware emits nothing for a blacklisted path; otherwise
it routes through `Infof` (always one line, containing the status code
digits — "503" when the status is 503) for statuses at least 500, and
through `Debugf` (hence nothing when the logger's debug mode is off)
for statuses below 500. -/
theorem c7_middleware_routing (α : Type) (L : Logger)
    (bl : Option (GoStr → Bool)) (sink : ResponseSink α) (r : Request)
    (ops : List WOp) (d c : GoStr) :
    (∀ p, bl = some p → p r.path = true →
      HTTPHandler L bl sink r ops d c = []) ∧
    ((∀ p, bl = some p → p r.path = false) →
      (500 ≤ (swRun sink ops).status →
        HTTPHandler L bl sink r ops d c =
          [L.outputf infoTag c
            (fmtReqLine r.method r.url (swRun sink ops).status d)] ∧
        ((swRun sink ops).status = 503 →
          ∃ A B, HTTPHandler L bl sink r ops d c =
            [A ++ "503".toList ++ B])) ∧
      ((swRun sink ops).status < 500 →
        HTTPHandler L bl sink r ops d c =
          L.Debugf c (fmtReqLine r.method r.url (swRun sink ops).status d) ∧
        (L.debugEnabled = false →
          HTTPHandler L bl sink r ops d c = []))) := by
  constructor
  · intro p hbl hmatch
    simp [HTTPHandler, hbl, hmatch]
  · intro hno
    constructor
    · intro h5
      have hline : HTTPHandler L bl sink r ops d c =
          [L.outputf infoTag c
            (fmtReqLine r.method r.url (swRun sink ops).status d)] := by
        cases bl with
        | none => simp [HTTPHandler, h5, Logger.Infof, Logger.infof]
        | some p =>
          simp [HTTPHandler, hno p rfl, h5, Logger.Infof, Logger.infof]
      refine ⟨hline, fun h503 => ?_⟩
      obtain ⟨A, B, hAB⟩ := outputf_contains_msg L infoTag c
        (fmtReqLine r.method r.url (swRun sink ops).status d)
      rw [h503] at hline hAB
      refine ⟨A ++ r.method ++ ' ' :: r.url ++ " [".toList,
        "] (".toList ++ d ++ [')'] ++ B, ?_⟩
      rw [hline, hAB]
      simp [fmtReqLine, show natToStr 503 = "503".toList from rfl,
        List.append_assoc]
    · intro h5
      have hn : ¬ 500 ≤ (swRun sink ops).status := by omega
      have hline : HTTPHandler L bl sink r ops d c =
          L.Debugf c (fmtReqLine r.method r.url (swRun sink ops).status d) := by
        cases bl with
        | none => simp [HTTPHandler, hn]
        | some p => simp [HTTPHandler, hno p rfl, hn]
      refine ⟨hline, fun hdbg => ?_⟩
      rw [hline]
      simp [Logger.Debugf, Logger.debugf, hdbg]

/-- Witness for C7 at concrete requests: a blacklisted path emits
nothing; a 503 response emits one Info line containing "503"; a 200
response on a debug-disabled logger emits nothing. -/
theorem c7_witness :
    HTTPHandler (Logger.mk "main".toList false)
      (some (fun p => p == "/ping".toList))
      (ResponseSink.mk (α := Unit) none)
      (Request.mk "GET".toList "/ping".toList "/ping".toList)
      [] "1ms".toList [] = [] ∧
    (∃ A B,
      HTTPHandler (Logger.mk "main".toList false) none
        (ResponseSink.mk (α := Unit) none)
        (Request.mk "GET".toList "/x".toList "/x".toList)
        [WOp.writeHeader 503] "1ms".toList [] = [A ++ "503".toList ++ B]) ∧
    HTTPHandler (Logger.mk "main".toList false) none
      (ResponseSink.mk (α := Unit) none)
      (Request.mk "GET".toList "/x".toList "/x".toList)
      [] "1ms".toList [] = [] := by
  refine ⟨?_, ?_, ?_⟩
  · exact (c7_middleware_routing Unit (Logger.mk "main".toList false)
      (some (fun p => p == "/ping".toList)) (ResponseSink.mk none)
      (Request.mk "GET".toList "/ping".toList "/ping".toList)
      [] "1ms".toList []).1 _ rfl (by decide)
  · exact (((c7_middleware_routing Unit (Logger.mk "main".toList false) none
      (ResponseSink.mk none)
      (Request.mk "GET".toList "/x".toList "/x".toList)
      [WOp.writeHeader 503] "1ms".toList []).2
      (fun p hp => Option.noConfusion hp)).1 (by decide)).2 (by decide)
  · exact (((c7_middleware_routing Unit (Logger.mk "main".toList false) none
      (ResponseSink.mk none)
      (Request.mk "GET".toList "/x".toList "/x".toList)
      [] "1ms".toList []).2
      (fun p hp => Option.noConfusion hp)).2 (by decide)).2 rfl

end GoLog
